import Mathlib

/-!
Shallow embedding of the badminton queue server (`server.js`) of the
`queuesystem` repository: the `Player` class, the priority queue
(`BadmintonQueue`), match objects (`BadmintonMatch`), and the HTTP route
handlers that the natural-language specification describes as `admit`,
`withdraw`, `formSession` and `resolveSession`.

Modelling conventions:
* JS timestamps (`new Date()`, millisecond numbers) are `ℤ` values passed in
  as an explicit `now` parameter.
* JS floating-point arithmetic on queue weights is modelled exactly over `ℚ`
  (all weight values the code produces are multiples of 1/100, where the
  float computation is exact up to the comparator's 0.01 noise absorption).
* The Elo computation `1 / (1 + 10 ** ((o - s) / 400))` is transcendental, so
  it is modelled over `ℝ`; `Math.round` is Mathlib's `round` (both round
  half-up, `⌊x + 1/2⌋`).
* JS object references are replaced by the participant/match id: the registry
  (`players` object) is the single owner of `Player` values and every
  operation that mutates a shared object is modelled as an update of the
  registry entry with that id.
* `Array.prototype.sort` (stable since ES2019) with the queue comparator is
  modelled by the stable insertion sort `sortEntries`.
-/

namespace QueueSystem

/-- Participant record, translated field-for-field from the `Player` class
constructor (the unused `courtNumber`-style display fields aside, every field
read or written by the core operations is present). -/
structure Player where
  id : String
  name : String
  ranking : ℤ
  wins : ℕ
  losses : ℕ
  totalMatches : ℕ
  queueWeight : ℚ
  lastMatchTime : Option ℤ
  isInQueue : Bool
  isInMatch : Bool
deriving DecidableEq

/-- Translated from `new Player(name)`: fresh participant with baseline
rating 1200 and zeroed counters; the uuid is passed in explicitly. -/
def Player.make (freshId nm : String) : Player :=
  { id := freshId, name := nm, ranking := 1200, wins := 0, losses := 0,
    totalMatches := 0, queueWeight := 1, lastMatchTime := none,
    isInQueue := false, isInMatch := false }

/-- Translated from `Player.calculateQueueWeight`: base weight 1.0, plus
`min(minutesSinceLastMatch / 30, 2.0)` when a last-match time exists, plus
0.3 when the rating is below 1000, the total rounded to 2 decimals and
stored back on the player.  `now` and the stored time are in milliseconds,
so minutes are `(now - t) / (1000 * 60)`. -/
def Player.calculateQueueWeight (p : Player) (now : ℤ) : Player :=
  let base : ℚ := 1
  let withWait : ℚ :=
    match p.lastMatchTime with
    | some t => base + min ((((now - t : ℤ) : ℚ) / (1000 * 60)) / 30) 2
    | none => base
  let withAssist : ℚ := if p.ranking < 1000 then withWait + 3 / 10 else withWait
  { p with queueWeight := ((round (withAssist * 100) : ℤ) : ℚ) / 100 }

/-- Translated from `Player.updateRanking`: the Elo expected score
`1 / (1 + 10 ** ((opponentRanking - this.ranking) / 400))` over `ℝ`. -/
noncomputable def expectedScore (selfRating : ℤ) (opponentRating : ℚ) : ℝ :=
  1 / (1 + (10 : ℝ) ^ (((opponentRating : ℝ) - (selfRating : ℝ)) / 400))

/-- Translated from `Player.updateRanking`: the new rating
`Math.round(this.ranking + 32 * (actualScore - expectedScore))` with
actual score 1 for a win and 0 for a loss. -/
noncomputable def eloNewRanking (selfRating : ℤ) (opponentRating : ℚ) (won : Bool) : ℤ :=
  round ((selfRating : ℝ) +
    32 * ((if won then (1 : ℝ) else 0) - expectedScore selfRating opponentRating))

/-- Translated from `Player.updateRanking`: updates the rating via
`eloNewRanking` and bumps the win/loss and total-match counters. -/
noncomputable def Player.updateRanking (p : Player) (won : Bool) (opponentRanking : ℚ) : Player :=
  { p with
    ranking := eloNewRanking p.ranking opponentRanking won,
    wins := if won then p.wins + 1 else p.wins,
    losses := if won then p.losses else p.losses + 1,
    totalMatches := p.totalMatches + 1 }

/-- Queue entry, translated from the object literal pushed in
`BadmintonQueue.addPlayer`: the player reference is kept as the player's id,
the join time and the weight frozen at admission. -/
structure QueueEntry where
  playerId : String
  joinTime : ℤ
  weight : ℚ
deriving DecidableEq

/-- The queue comparator of `BadmintonQueue.addPlayer`, as the relation
"`a` may be placed before `b`" (comparator value `≤ 0`): weights closer
than 0.01 are treated as a tie broken by join time ascending, otherwise
higher weight first. -/
def entryBefore (a b : QueueEntry) : Prop :=
  if |a.weight - b.weight| < 1 / 100 then a.joinTime ≤ b.joinTime else b.weight ≤ a.weight

instance entryBefore.decidable (a b : QueueEntry) : Decidable (entryBefore a b) := by
  unfold entryBefore
  exact inferInstance

/-- Stable insertion of an entry: it is placed after every element that may
come before it, which is exactly where a stable sort puts the newest
element. -/
def insertEntry (e : QueueEntry) : List QueueEntry → List QueueEntry
  | [] => [e]
  | a :: rest => if entryBefore a e then a :: insertEntry e rest else e :: a :: rest

/-- Model of `badmintonQueue.sort(comparator)`: a stable sort with respect to
`entryBefore` (ES2019 `Array.prototype.sort` is stable, and on the weight
values the code produces the comparator is consistent, so the stable sorted
permutation is exactly what the JS engine returns). -/
def sortEntries (l : List QueueEntry) : List QueueEntry :=
  l.foldl (fun acc e => insertEntry e acc) []

/-- Error taxonomy of the queue-level operations and the admission routes,
one constructor per early-return branch in the source. -/
inductive QueueError
  | alreadyActive
  | notQueued
  | insufficientEntries
  | notFound
  | blankName
deriving DecidableEq

/-- Translated from `BadmintonQueue.addPlayer(player)`: fails when the player
is already queued or in a match; otherwise marks the player queued,
recomputes its weight, appends a fresh entry, re-sorts the queue with the
comparator and returns the player's 1-based position (`findIndex + 1`). -/
def BadmintonQueue.addPlayer (p : Player) (queue : List QueueEntry) (now : ℤ) :
    Except QueueError (Player × List QueueEntry × ℕ) :=
  if p.isInQueue || p.isInMatch then .error .alreadyActive
  else
    let p' := Player.calculateQueueWeight { p with isInQueue := true } now
    let sorted := sortEntries
      (queue ++ [{ playerId := p'.id, joinTime := now, weight := p'.queueWeight }])
    let pos : ℕ :=
      match sorted.findIdx? (fun e => e.playerId = p'.id) with
      | some i => i + 1
      | none => 0
    .ok (p', sorted, pos)

/-- Status of a match object (`'active'` / `'completed'` strings in JS). -/
inductive MatchStatus
  | active
  | completed
deriving DecidableEq

/-- Match object, translated from the `BadmintonMatch` class; the roster is
kept as the list of participant ids frozen at creation (JS stores object
references into the shared registry), and `result` stores the winner and
loser id lists. -/
structure BadmintonMatch where
  id : String
  playerIds : List String
  startTime : ℤ
  endTime : Option ℤ
  result : Option (List String × List String)
  status : MatchStatus
deriving DecidableEq

/-- Whole-server mutable state: the `players` registry (in insertion order,
as `Object.values` enumerates it), the queue, the `matches` store, and the
id lists backing `activeMatches` and `completedMatches`. -/
structure ServerState where
  players : List Player
  queue : List QueueEntry
  matchesById : List BadmintonMatch
  activeIds : List String
  completedIds : List String
deriving DecidableEq

/-- Registry write-back of a mutated player object: every registry slot
holding the object with this id now shows the updated value (JS mutates the
shared object in place). -/
def replaceById (ps : List Player) (pid : String) (p' : Player) : List Player :=
  ps.map (fun x => if x.id = pid then p' else x)

/-- Registry write-back of a batch of mutated player objects, keyed by id. -/
def applyUpdates (ps upds : List Player) : List Player :=
  ps.map (fun x =>
    match upds.find? (fun u => u.id = x.id) with
    | some u => u
    | none => x)

/-- Queue admission at the server level (the shape shared by the join and
rejoin routes once the target player is known): look the player up by id,
run `BadmintonQueue.addPlayer`, and write the mutated player back into the
registry. -/
def systemAdmit (st : ServerState) (pid : String) (now : ℤ) :
    ServerState × Except QueueError ℕ :=
  match st.players.find? (fun x => x.id = pid) with
  | none => (st, .error .notFound)
  | some p =>
    match BadmintonQueue.addPlayer p st.queue now with
    | .error e => (st, .error e)
    | .ok (p', q', r) =>
      ({ st with players := replaceById st.players pid p', queue := q' }, .ok r)

/-- Translated from `BadmintonQueue.removePlayer(playerId)` as invoked by the
leave route: find the entry index, fail with `NotQueued` when absent,
otherwise splice that single entry out and clear the player's in-queue
flag in the registry. -/
def systemWithdraw (st : ServerState) (pid : String) :
    ServerState × Except QueueError Unit :=
  match st.queue.findIdx? (fun e => e.playerId = pid) with
  | none => (st, .error .notQueued)
  | some i =>
    ({ st with
       queue := st.queue.eraseIdx i,
       players := st.players.map (fun x =>
         if x.id = pid then { x with isInQueue := false } else x) },
     .ok ())

/-- Translated from `BadmintonQueue.createMatch` plus its route: fails when
fewer than 4 entries wait; otherwise splices the first 4 entries off, marks
those players in-match, and registers a fresh active match whose roster is
the extracted entries in rank order. -/
def systemCreateMatch (st : ServerState) (mid : String) (now : ℤ) :
    ServerState × Except QueueError BadmintonMatch :=
  if st.queue.length < 4 then (st, .error .insufficientEntries)
  else
    let taken := st.queue.take 4
    let rosterIds := taken.map QueueEntry.playerId
    let m : BadmintonMatch :=
      { id := mid, playerIds := rosterIds, startTime := now,
        endTime := none, result := none, status := .active }
    ({ st with
       queue := st.queue.drop 4,
       players := st.players.map (fun x =>
         if rosterIds.contains x.id then { x with isInQueue := false, isInMatch := true } else x),
       matchesById := st.matchesById ++ [m],
       activeIds := st.activeIds ++ [mid] },
     .ok m)

/-- Translated from `BadmintonMatch.completeMatch(winners, losers)`: both
side averages (`reduce(sum) / 2`) are taken from the argument lists before
any rating is touched, then every winner and loser is updated from that
snapshot, stamped with the resolution time, and taken out of in-match
state; the match object is closed.  Returns the mutated match and the two
mutated player lists. -/
noncomputable def BadmintonMatch.completeMatch (m : BadmintonMatch)
    (winners losers : List Player) (now : ℤ) :
    BadmintonMatch × List Player × List Player :=
  let winnerAvgRanking : ℚ := (((winners.map Player.ranking).sum : ℤ) : ℚ) / 2
  let loserAvgRanking : ℚ := (((losers.map Player.ranking).sum : ℤ) : ℚ) / 2
  ({ m with
     endTime := some now,
     result := some (winners.map Player.id, losers.map Player.id),
     status := MatchStatus.completed },
   winners.map (fun p =>
     { p.updateRanking true loserAvgRanking with lastMatchTime := some now, isInMatch := false }),
   losers.map (fun p =>
     { p.updateRanking false winnerAvgRanking with lastMatchTime := some now, isInMatch := false }))

/-- Error taxonomy of the complete-match route, one constructor per early
return: the 400 for a missing id or a winner list whose length is not 2,
the 404 for a session that is unknown or not active, and the 400 for a
winner selection that does not split the roster 2/2. -/
inductive ResolveError
  | badRequest
  | sessionNotFound
  | invalidOutcome
deriving DecidableEq

/-- Roster of a match resolved against the registry (`match.players` holds
registry object references in JS). -/
def rosterOf (st : ServerState) (m : BadmintonMatch) : List Player :=
  m.playerIds.filterMap fun pid => st.players.find? (fun x => x.id = pid)

/-- Translated from `match.players.filter(p => winnerIds.includes(p.id))`. -/
def winnersOf (st : ServerState) (m : BadmintonMatch) (winnerIds : List String) : List Player :=
  (rosterOf st m).filter fun x => winnerIds.contains x.id

/-- Translated from `match.players.filter(p => !winnerIds.includes(p.id))`. -/
def losersOf (st : ServerState) (m : BadmintonMatch) (winnerIds : List String) : List Player :=
  (rosterOf st m).filter fun x => !(winnerIds.contains x.id)

/-- Server state after the success path of the complete-match handler: the
closed match object is written back into the store, the two mutated player
lists are written back into the registry, and the match id moves from the
active list to the completed list. -/
noncomputable def resolvedState (st : ServerState) (m : BadmintonMatch) (matchId : String)
    (winnerIds : List String) (now : ℤ) : ServerState :=
  { st with
    matchesById := st.matchesById.map (fun x =>
      if x.id = matchId
        then (m.completeMatch (winnersOf st m winnerIds) (losersOf st m winnerIds) now).1
        else x),
    players := applyUpdates st.players
      ((m.completeMatch (winnersOf st m winnerIds) (losersOf st m winnerIds) now).2.1 ++
        (m.completeMatch (winnersOf st m winnerIds) (losersOf st m winnerIds) now).2.2),
    activeIds :=
      if st.activeIds.contains matchId then st.activeIds.erase matchId
      else st.activeIds,
    completedIds :=
      if st.activeIds.contains matchId then st.completedIds ++ [matchId]
      else st.completedIds }

/-- Translated from the `POST /api/badminton/complete-match` handler, in
source order: the bad-request guard (`!matchId || winnerIds.length !== 2`),
the active-match lookup, the 2/2 winner-selection guard, then
`completeMatch` followed by the registry write-back and the move of the
match id from the active list to the completed list. -/
noncomputable def completeMatchRoute (st : ServerState) (matchId : String)
    (winnerIds : List String) (now : ℤ) : ServerState × Except ResolveError Unit :=
  if matchId = "" ∨ winnerIds.length ≠ 2 then (st, .error .badRequest)
  else
    match st.matchesById.find? (fun m => m.id = matchId) with
    | none => (st, .error .sessionNotFound)
    | some m =>
      if m.status ≠ MatchStatus.active then (st, .error .sessionNotFound)
      else if (winnersOf st m winnerIds).length ≠ 2 ∨ (losersOf st m winnerIds).length ≠ 2
        then (st, .error .invalidOutcome)
      else (resolvedState st m matchId winnerIds now, .ok ())

/-- Model of JavaScript `String.prototype.trim`: strips leading and
trailing whitespace characters (structural recursion over the character
list, so concrete instances evaluate). -/
def jsTrim (s : String) : String :=
  String.mk (((s.data.dropWhile Char.isWhitespace).reverse.dropWhile
    Char.isWhitespace).reverse)

/-- Translated from the `POST /api/badminton/join` handler: reject a blank
name, look an existing participant up by the trimmed name, create a fresh
one (baseline rating 1200) only when none exists, then run queue admission
and store the resulting player object. -/
def joinRoute (st : ServerState) (rawName freshId : String) (now : ℤ) :
    ServerState × Except QueueError ℕ :=
  if jsTrim rawName = "" then (st, .error .blankName)
  else
    match st.players.find? (fun x => x.name = jsTrim rawName) with
    | some p =>
      match BadmintonQueue.addPlayer p st.queue now with
      | .error e => (st, .error e)
      | .ok (p', q', r) =>
        ({ st with players := replaceById st.players p.id p', queue := q' }, .ok r)
    | none =>
      let p := Player.make freshId (jsTrim rawName)
      match BadmintonQueue.addPlayer p st.queue now with
      | .error e => ({ st with players := st.players ++ [p] }, .error e)
      | .ok (p', q', r) =>
        ({ st with players := st.players ++ [p'], queue := q' }, .ok r)

/-- Queue contents after a whole sequence of admissions starting from the
empty queue; each step runs `BadmintonQueue.addPlayer` with that step's
player object and clock value, keeping the old queue on failure. -/
def admitQueueSeq (steps : List (Player × ℤ)) : List QueueEntry :=
  steps.foldl
    (fun q s =>
      match BadmintonQueue.addPlayer s.1 q s.2 with
      | .error _ => q
      | .ok (_, q', _) => q')
    []

/-- Weight value produced by `calculateQueueWeight`: a multiple of 1/100,
because the computed raw weight is rounded to 2 decimals before being
stored.  On such values the comparator's 0.01 tolerance collapses to
equality. -/
def GridWeight (w : ℚ) : Prop := ∃ n : ℤ, w = (n : ℚ) / 100

/-- Concrete participant used to instantiate the numerical weight scenario:
rating 1200, last session at time 0. -/
def scenarioPlayer : Player :=
  { id := "p1", name := "P", ranking := 1200, wins := 0, losses := 0,
    totalMatches := 0, queueWeight := 1, lastMatchTime := some 0,
    isInQueue := false, isInMatch := false }

/-- The player value produced by a successful admission: flagged as queued,
with the weight recomputed at admission time (this is what
`BadmintonQueue.addPlayer` stores back). -/
def admittedPlayer (p : Player) (now : ℤ) : Player :=
  Player.calculateQueueWeight { p with isInQueue := true } now

/-- The queue entry created by a successful admission. -/
def admittedEntry (p : Player) (now : ℤ) : QueueEntry :=
  { playerId := p.id, joinTime := now, weight := (admittedPlayer p now).queueWeight }

/-- Everything a successful admission of the participant `p` (looked up
under id `pid`) does to the server state: the registry slot is overwritten
with the queued, re-weighted player, the queue is the old queue plus one
new entry re-sorted, and the returned rank is the 1-based position of the
participant's entry in the new order. -/
def admitSuccessSpec (st : ServerState) (pid : String) (now : ℤ) (p : Player) : Prop :=
  ∃ st' r, systemAdmit st pid now = (st', .ok r) ∧
    st'.players = replaceById st.players pid (admittedPlayer p now) ∧
    (admittedPlayer p now).isInQueue = true ∧
    st'.queue = sortEntries (st.queue ++ [admittedEntry p now]) ∧
    st'.queue.length = st.queue.length + 1 ∧
    1 ≤ r ∧
    ∃ h : r - 1 < st'.queue.length, (st'.queue.get ⟨r - 1, h⟩).playerId = p.id

/-- Fully updated winner record after resolution: rating from the Elo
formula against the opposing average, win counter bumped, total-sessions
counter bumped, last-session timestamp set to resolution time, and
in-session state cleared. -/
noncomputable def resolvedWinner (p : Player) (avg : ℚ) (now : ℤ) : Player :=
  { p with ranking := eloNewRanking p.ranking avg true, wins := p.wins + 1,
           totalMatches := p.totalMatches + 1, lastMatchTime := some now,
           isInMatch := false }

/-- Fully updated loser record after resolution. -/
noncomputable def resolvedLoser (p : Player) (avg : ℚ) (now : ℤ) : Player :=
  { p with ranking := eloNewRanking p.ranking avg false, losses := p.losses + 1,
           totalMatches := p.totalMatches + 1, lastMatchTime := some now,
           isInMatch := false }

/-- What a successful resolution does to the two sides: the opponent rating
used for each side is the arithmetic mean of the opposing side's ratings
taken from the pre-update snapshot (the `/ 2` in the source is the mean of
the 2-member opposing side), every roster member's rating, counters,
last-session timestamp and membership state are updated, the match is
closed, and writing the two updated sides back to a registry is independent
of the order of the sides. -/
def resolutionSpec (m : BadmintonMatch) (winners losers : List Player) (now : ℤ) : Prop :=
  (((winners.map Player.ranking).sum : ℚ) / 2 =
    ((winners.map Player.ranking).sum : ℚ) / (winners.length : ℚ)) ∧
  (((losers.map Player.ranking).sum : ℚ) / 2 =
    ((losers.map Player.ranking).sum : ℚ) / (losers.length : ℚ)) ∧
  (m.completeMatch winners losers now).2.1 =
    winners.map (fun p => resolvedWinner p (((losers.map Player.ranking).sum : ℚ) / 2) now) ∧
  (m.completeMatch winners losers now).2.2 =
    losers.map (fun p => resolvedLoser p (((winners.map Player.ranking).sum : ℚ) / 2) now) ∧
  (∀ p' ∈ (m.completeMatch winners losers now).2.1 ++ (m.completeMatch winners losers now).2.2,
    p'.isInQueue = false ∧ p'.isInMatch = false ∧ p'.lastMatchTime = some now) ∧
  (m.completeMatch winners losers now).1.status = MatchStatus.completed ∧
  (m.completeMatch winners losers now).1.endTime = some now ∧
  (m.completeMatch winners losers now).1.result =
    some (winners.map Player.id, losers.map Player.id) ∧
  (∀ ps, applyUpdates ps
      ((m.completeMatch winners losers now).2.1 ++ (m.completeMatch winners losers now).2.2) =
    applyUpdates ps
      ((m.completeMatch winners losers now).2.2 ++ (m.completeMatch winners losers now).2.1))

/-- Everything a successful session formation does: the first 4 entries are
removed in rank order and become the roster, the rest of the queue is kept
in order, and every roster participant in the registry moves to in-session
state. -/
def createMatchSuccessSpec (st : ServerState) (mid : String) (now : ℤ) : Prop :=
  ∃ st' m, systemCreateMatch st mid now = (st', .ok m) ∧
    m.playerIds = (st.queue.take 4).map QueueEntry.playerId ∧
    (st.queue.take 4).length = 4 ∧
    st'.queue = st.queue.drop 4 ∧
    st.queue = st.queue.take 4 ++ st'.queue ∧
    (∀ x ∈ st.players, m.playerIds.contains x.id = true →
      { x with isInQueue := false, isInMatch := true } ∈ st'.players) ∧
    (∀ x ∈ st.players, m.playerIds.contains x.id = false → x ∈ st'.players)

/-- Behaviour of the complete-match route, with the source's actual check
order: the 400 bad-request guard on the winner-id count (and a blank match
id) fires before the session lookup; a missing or non-active session then
yields the 404; an active session whose roster is not split exactly 2/2 by
the winner ids yields the invalid-outcome 400; every failure leaves the
state untouched; and resolving the same session id again after a success
fails with the 404. -/
def resolveSpec (st : ServerState) (matchId : String) (winnerIds : List String) (now : ℤ) : Prop :=
  ((matchId = "" ∨ winnerIds.length ≠ 2) →
    completeMatchRoute st matchId winnerIds now = (st, .error .badRequest)) ∧
  (matchId ≠ "" → winnerIds.length = 2 →
    st.matchesById.find? (fun m => m.id = matchId) = none →
    completeMatchRoute st matchId winnerIds now = (st, .error .sessionNotFound)) ∧
  (∀ m, matchId ≠ "" → winnerIds.length = 2 →
    st.matchesById.find? (fun x => x.id = matchId) = some m →
    m.status ≠ MatchStatus.active →
    completeMatchRoute st matchId winnerIds now = (st, .error .sessionNotFound)) ∧
  (∀ m, matchId ≠ "" → winnerIds.length = 2 →
    st.matchesById.find? (fun x => x.id = matchId) = some m →
    m.status = MatchStatus.active →
    ((winnersOf st m winnerIds).length ≠ 2 ∨ (losersOf st m winnerIds).length ≠ 2) →
    completeMatchRoute st matchId winnerIds now = (st, .error .invalidOutcome)) ∧
  (∀ e, (completeMatchRoute st matchId winnerIds now).2 = Except.error e →
    (completeMatchRoute st matchId winnerIds now).1 = st) ∧
  (∀ st', completeMatchRoute st matchId winnerIds now = (st', .ok ()) →
    ∀ now2 : ℤ, (completeMatchRoute st' matchId winnerIds now2).2 = .error .sessionNotFound)

/-- Behaviour of the join route on a non-blank name: an existing
participant with exactly the trimmed name is reused (the registry keeps its
length and the queue operation targets that participant's id); only when no
participant carries the name is a fresh one appended, created with baseline
rating 1200 and the supplied fresh id; and after such a creation a second
admission under the same name resolves to the created record (same id) and
creates no further participant. -/
def joinSpec (st : ServerState) (rawName freshId : String) (now : ℤ) : Prop :=
  (∀ p, st.players.find? (fun x => x.name = jsTrim rawName) = some p →
    ((joinRoute st rawName freshId now).1.players.length = st.players.length ∧
     (p.isInQueue = false → p.isInMatch = false →
       ∃ r, joinRoute st rawName freshId now =
         ({ st with players := replaceById st.players p.id (admittedPlayer p now),
                    queue := sortEntries (st.queue ++ [admittedEntry p now]) }, .ok r)))) ∧
  (st.players.find? (fun x => x.name = jsTrim rawName) = none →
    (∃ r, joinRoute st rawName freshId now =
      ({ st with
         players := st.players ++ [admittedPlayer (Player.make freshId (jsTrim rawName)) now],
         queue := sortEntries
           (st.queue ++ [admittedEntry (Player.make freshId (jsTrim rawName)) now]) },
       .ok r)) ∧
    (admittedPlayer (Player.make freshId (jsTrim rawName)) now).id = freshId ∧
    (admittedPlayer (Player.make freshId (jsTrim rawName)) now).name = jsTrim rawName ∧
    (admittedPlayer (Player.make freshId (jsTrim rawName)) now).ranking = 1200) ∧
  (st.players.find? (fun x => x.name = jsTrim rawName) = none →
    ∀ freshId2 : String, ∀ now2 : ℤ,
      ((joinRoute st rawName freshId now).1.players.find?
          (fun x => x.name = jsTrim rawName)).map Player.id = some freshId ∧
      (joinRoute (joinRoute st rawName freshId now).1 rawName freshId2 now2).1.players.length =
        (joinRoute st rawName freshId now).1.players.length)

/-- Empty server state, used to instantiate failure scenarios. -/
def emptyState : ServerState :=
  { players := [], queue := [], matchesById := [], activeIds := [], completedIds := [] }

/-- Queue entry literal used by concrete scenarios (weight 1, as for a
first-time participant). -/
def wEntry (pid : String) (t : ℤ) : QueueEntry :=
  { playerId := pid, joinTime := t, weight := 1 }

/-- Registry-only state with one idle participant `a`. -/
def oneIdleState : ServerState :=
  { players := [Player.make "a" "A"], queue := [], matchesById := [],
    activeIds := [], completedIds := [] }

/-- State with four queued participants, enough to form a session. -/
def fourQueuedState : ServerState :=
  { players := [{ Player.make "a" "A" with isInQueue := true },
                { Player.make "b" "B" with isInQueue := true },
                { Player.make "c" "C" with isInQueue := true },
                { Player.make "d" "D" with isInQueue := true }],
    queue := [wEntry "a" 0, wEntry "b" 1, wEntry "c" 2, wEntry "d" 3],
    matchesById := [], activeIds := [], completedIds := [] }

/-- Queued participant `a`, used for the withdraw frame scenario. -/
def queuedA : Player := { Player.make "a" "A" with isInQueue := true }

/-- State with a single queued participant `a`, used for the withdraw frame
scenario. -/
def oneQueuedState : ServerState :=
  { players := [queuedA],
    queue := [wEntry "a" 0], matchesById := [],
    activeIds := [], completedIds := [] }

/-- Frame conditions of a successful withdraw: only the entry at the found
index is removed (the rest of the queue keeps its order and weights), only
the withdrawn participant's in-queue flag changes (all statistics fields
are untouched), and the match state is untouched. -/
def withdrawFrameSpec (st : ServerState) (pid : String) (i : ℕ) (p : Player) : Prop :=
  ∃ st'', systemWithdraw st pid = (st'', .ok ()) ∧
    st''.queue = st.queue.eraseIdx i ∧
    st''.queue = st.queue.take i ++ st.queue.drop (i + 1) ∧
    st''.queue.Sublist st.queue ∧
    (∃ h : i < st.queue.length, (st.queue.get ⟨i, h⟩).playerId = pid) ∧
    st''.players.find? (fun x => x.id = pid) = some { p with isInQueue := false } ∧
    ({ p with isInQueue := false }).ranking = p.ranking ∧
    ({ p with isInQueue := false }).wins = p.wins ∧
    ({ p with isInQueue := false }).losses = p.losses ∧
    ({ p with isInQueue := false }).totalMatches = p.totalMatches ∧
    ({ p with isInQueue := false }).lastMatchTime = p.lastMatchTime ∧
    ({ p with isInQueue := false }).isInMatch = false ∧
    (∀ x ∈ st.players, x.id ≠ pid → x ∈ st''.players) ∧
    st''.matchesById = st.matchesById ∧
    st''.activeIds = st.activeIds ∧
    st''.completedIds = st.completedIds

/-- Concrete 2-versus-2 roster for the resolution scenario. -/
def scenarioWinners : List Player := [Player.make "w1" "W1", Player.make "w2" "W2"]

/-- Concrete losing side for the resolution scenario. -/
def scenarioLosers : List Player := [Player.make "l1" "L1", Player.make "l2" "L2"]

/-- Concrete active match over the scenario roster. -/
def scenarioMatch : BadmintonMatch :=
  { id := "m1", playerIds := ["w1", "w2", "l1", "l2"], startTime := 0,
    endTime := none, result := none, status := .active }

/- ------------------------------------------------------------------ -/
/- Theorems                                                            -/
/- ------------------------------------------------------------------ -/

/-- Every weight stored by `calculateQueueWeight` is a multiple of 1/100. -/
theorem gridWeight_calculate (p : Player) (now : ℤ) :
    GridWeight ((p.calculateQueueWeight now).queueWeight) := by
  unfold Player.calculateQueueWeight GridWeight
  cases hl : p.lastMatchTime <;> simp only [hl] <;> split <;> exact ⟨_, rfl⟩

/-- On weights that are multiples of 1/100, the comparator's 0.01 tolerance
is exactly equality. -/
theorem grid_tie_iff {a b : ℚ} (ha : GridWeight a) (hb : GridWeight b) :
    (|a - b| < 1 / 100) ↔ a = b := by
  obtain ⟨m, rfl⟩ := ha
  obtain ⟨n, rfl⟩ := hb
  have hsub : (m : ℚ) / 100 - (n : ℚ) / 100 = ((m - n : ℤ) : ℚ) / 100 := by
    push_cast
    ring
  rw [hsub]
  constructor
  · intro h
    have habs : |((m - n : ℤ) : ℚ)| < 1 := by
      rw [abs_div, abs_of_pos (by norm_num : (0 : ℚ) < 100)] at h
      linarith
    have hz : |m - n| < 1 := by exact_mod_cast habs
    have h0 : m - n = 0 := Int.abs_lt_one_iff.mp hz
    have : m = n := by omega
    rw [this]
  · intro h
    have : ((m - n : ℤ) : ℚ) = 0 := by
      have hmn : m = n := by
        field_simp at h
        exact_mod_cast h
      simp [hmn]
    rw [this]
    norm_num

/-- The comparator relation is total (some order always holds between any
two entries). -/
theorem entryBefore_total (a b : QueueEntry) : entryBefore a b ∨ entryBefore b a := by
  unfold entryBefore
  by_cases htie : |a.weight - b.weight| < 1 / 100
  · have htie' : |b.weight - a.weight| < 1 / 100 := by rw [abs_sub_comm]; exact htie
    rw [if_pos htie, if_pos htie']
    exact le_total a.joinTime b.joinTime
  · have htie' : ¬ |b.weight - a.weight| < 1 / 100 := by rw [abs_sub_comm]; exact htie
    rw [if_neg htie, if_neg htie']
    exact (le_total b.weight a.weight).imp id id

/-- On grid weights the comparator relation is transitive. -/
theorem entryBefore_trans {a b c : QueueEntry}
    (ha : GridWeight a.weight) (hb : GridWeight b.weight) (hc : GridWeight c.weight)
    (hab : entryBefore a b) (hbc : entryBefore b c) : entryBefore a c := by
  unfold entryBefore at hab hbc ⊢
  by_cases h1 : |a.weight - b.weight| < 1 / 100 <;>
    by_cases h2 : |b.weight - c.weight| < 1 / 100
  · have e1 : a.weight = b.weight := (grid_tie_iff ha hb).mp h1
    have e2 : b.weight = c.weight := (grid_tie_iff hb hc).mp h2
    rw [if_pos h1] at hab
    rw [if_pos h2] at hbc
    rw [if_pos ((grid_tie_iff ha hc).mpr (e1.trans e2))]
    exact le_trans hab hbc
  · have e1 : a.weight = b.weight := (grid_tie_iff ha hb).mp h1
    rw [if_neg h2] at hbc
    have hne2 : b.weight ≠ c.weight := fun h => h2 ((grid_tie_iff hb hc).mpr h)
    have hlt : c.weight < b.weight := lt_of_le_of_ne hbc (fun h => hne2 h.symm)
    have hne : a.weight ≠ c.weight := by rw [e1]; exact hne2
    rw [if_neg (fun h => hne ((grid_tie_iff ha hc).mp h))]
    rw [e1]
    exact le_of_lt hlt
  · have e2 : b.weight = c.weight := (grid_tie_iff hb hc).mp h2
    rw [if_neg h1] at hab
    have hne1 : a.weight ≠ b.weight := fun h => h1 ((grid_tie_iff ha hb).mpr h)
    have hlt : b.weight < a.weight := lt_of_le_of_ne hab (fun h => hne1 h.symm)
    have hne : a.weight ≠ c.weight := fun h => hne1 (by rw [h, e2])
    rw [if_neg (fun h => hne ((grid_tie_iff ha hc).mp h))]
    rw [← e2]
    exact le_of_lt hlt
  · rw [if_neg h1] at hab
    rw [if_neg h2] at hbc
    have hne1 : a.weight ≠ b.weight := fun h => h1 ((grid_tie_iff ha hb).mpr h)
    have hne2 : b.weight ≠ c.weight := fun h => h2 ((grid_tie_iff hb hc).mpr h)
    have hlt : c.weight < a.weight :=
      lt_of_lt_of_le (lt_of_le_of_ne hbc (fun h => hne2 h.symm)) hab
    have hne : a.weight ≠ c.weight := fun h => absurd h.symm (ne_of_lt hlt)
    rw [if_neg (fun h => hne ((grid_tie_iff ha hc).mp h))]
    exact le_of_lt hlt

/-- Stable insertion produces a permutation of consing the new entry. -/
theorem insertEntry_perm (e : QueueEntry) (l : List QueueEntry) :
    (insertEntry e l).Perm (e :: l) := by
  induction l with
  | nil => exact List.Perm.refl _
  | cons a rest ih =>
    simp only [insertEntry]
    split
    · exact (ih.cons a).trans (List.Perm.swap e a rest)
    · exact List.Perm.refl _

/-- Membership under stable insertion. -/
theorem mem_insertEntry {x e : QueueEntry} {l : List QueueEntry} :
    x ∈ insertEntry e l ↔ x = e ∨ x ∈ l := by
  rw [(insertEntry_perm e l).mem_iff]
  simp

/-- Stable insertion into a sorted grid queue keeps it sorted. -/
theorem insertEntry_pairwise {e : QueueEntry} {l : List QueueEntry}
    (hg : ∀ x ∈ l, GridWeight x.weight) (he : GridWeight e.weight)
    (hp : l.Pairwise entryBefore) :
    (insertEntry e l).Pairwise entryBefore := by
  induction l with
  | nil => simp [insertEntry]
  | cons a rest ih =>
    rw [List.pairwise_cons] at hp
    obtain ⟨haRest, hpRest⟩ := hp
    have hga : GridWeight a.weight := hg a (List.mem_cons_self a rest)
    have hgRest : ∀ x ∈ rest, GridWeight x.weight :=
      fun x hx => hg x (List.mem_cons_of_mem a hx)
    simp only [insertEntry]
    split
    · rename_i hae
      rw [List.pairwise_cons]
      refine ⟨fun b hb => ?_, ih hgRest hpRest⟩
      rcases mem_insertEntry.mp hb with rfl | hb'
      · exact hae
      · exact haRest b hb'
    · rename_i hae
      have hea : entryBefore e a := (entryBefore_total a e).resolve_left hae
      rw [List.pairwise_cons]
      refine ⟨fun b hb => ?_, List.Pairwise.cons haRest hpRest⟩
      rcases List.mem_cons.mp hb with rfl | hb'
      · exact hea
      · exact entryBefore_trans he hga (hgRest b hb') hea (haRest b hb')

/-- The insertion fold underlying `sortEntries` is a permutation. -/
theorem foldl_insert_perm (l : List QueueEntry) :
    ∀ acc : List QueueEntry,
      (l.foldl (fun a e => insertEntry e a) acc).Perm (acc ++ l) := by
  induction l with
  | nil => intro acc; simp
  | cons e rest ih =>
    intro acc
    have h1 := ih (insertEntry e acc)
    have h2 : (insertEntry e acc ++ rest).Perm ((e :: acc) ++ rest) :=
      (insertEntry_perm e acc).append_right rest
    have h3 : ((e :: acc) ++ rest).Perm (acc ++ e :: rest) := List.perm_middle.symm
    exact (h1.trans h2).trans h3

/-- `sortEntries` permutes its input. -/
theorem sortEntries_perm (l : List QueueEntry) : (sortEntries l).Perm l := by
  unfold sortEntries
  exact (foldl_insert_perm l []).trans (by simp)

/-- The insertion fold keeps grid weights and sortedness. -/
theorem foldl_insert_pairwise (l : List QueueEntry) :
    ∀ acc : List QueueEntry,
      (∀ x ∈ acc, GridWeight x.weight) → (∀ x ∈ l, GridWeight x.weight) →
      acc.Pairwise entryBefore →
      ((l.foldl (fun a e => insertEntry e a) acc).Pairwise entryBefore ∧
        ∀ x ∈ l.foldl (fun a e => insertEntry e a) acc, GridWeight x.weight) := by
  induction l with
  | nil => exact fun acc hga _ hp => ⟨hp, hga⟩
  | cons e rest ih =>
    intro acc hga hgl hp
    have hge : GridWeight e.weight := hgl e (List.mem_cons_self e rest)
    have hgRest : ∀ x ∈ rest, GridWeight x.weight :=
      fun x hx => hgl x (List.mem_cons_of_mem e hx)
    have hgacc' : ∀ x ∈ insertEntry e acc, GridWeight x.weight := by
      intro x hx
      rcases mem_insertEntry.mp hx with rfl | hx'
      · exact hge
      · exact hga x hx'
    exact ih (insertEntry e acc) hgacc' hgRest (insertEntry_pairwise hga hge hp)

/-- Sorting a queue whose weights lie on the 1/100 grid yields a queue
sorted by the comparator. -/
theorem sortEntries_pairwise {l : List QueueEntry}
    (hg : ∀ x ∈ l, GridWeight x.weight) :
    (sortEntries l).Pairwise entryBefore :=
  (foldl_insert_pairwise l [] (by simp) hg List.Pairwise.nil).1

/-- One admission step keeps the queue sorted and on the weight grid. -/
theorem admitStep_preserves (p : Player) (q : List QueueEntry) (now : ℤ)
    (hg : ∀ x ∈ q, GridWeight x.weight) (hp : q.Pairwise entryBefore) :
    ((match BadmintonQueue.addPlayer p q now with
      | .error _ => q
      | .ok (_, q', _) => q').Pairwise entryBefore ∧
      ∀ x ∈ (match BadmintonQueue.addPlayer p q now with
        | .error _ => q
        | .ok (_, q', _) => q'), GridWeight x.weight) := by
  by_cases hb : (p.isInQueue || p.isInMatch) = true
  · simp only [BadmintonQueue.addPlayer, hb, if_true]
    exact ⟨hp, hg⟩
  · have hgrow : ∀ x ∈ q ++
        [{ playerId := (Player.calculateQueueWeight { p with isInQueue := true } now).id,
           joinTime := now,
           weight := (Player.calculateQueueWeight { p with isInQueue := true } now).queueWeight }],
        GridWeight x.weight := by
      intro x hx
      rcases List.mem_append.mp hx with hx' | hx'
      · exact hg x hx'
      · rcases List.mem_singleton.mp hx' with rfl
        exact gridWeight_calculate _ now
    simp only [BadmintonQueue.addPlayer, hb, if_false]
    refine ⟨sortEntries_pairwise hgrow, ?_⟩
    intro x hx
    exact hgrow x ((sortEntries_perm _).mem_iff.mp hx)

/-- C1: after every sequence of admissions starting from the empty queue,
the queue is totally ordered by the comparator: weight descending, with
weights closer than 0.01 treated as equal and ordered by admission time
ascending. -/
theorem c1_queue_sorted (steps : List (Player × ℤ)) :
    (admitQueueSeq steps).Pairwise entryBefore := by
  unfold admitQueueSeq
  suffices h : ∀ (l : List (Player × ℤ)) (q : List QueueEntry),
      (∀ x ∈ q, GridWeight x.weight) → q.Pairwise entryBefore →
      ((l.foldl (fun q s =>
          match BadmintonQueue.addPlayer s.1 q s.2 with
          | .error _ => q
          | .ok (_, q', _) => q') q).Pairwise entryBefore ∧
        ∀ x ∈ l.foldl (fun q s =>
          match BadmintonQueue.addPlayer s.1 q s.2 with
          | .error _ => q
          | .ok (_, q', _) => q') q, GridWeight x.weight) by
    exact (h steps [] (by simp) List.Pairwise.nil).1
  intro l
  induction l with
  | nil => exact fun q hg hp => ⟨hp, hg⟩
  | cons s rest ih =>
    intro q hg hp
    have hstep := admitStep_preserves s.1 q s.2 hg hp
    exact ih _ hstep.2 hstep.1

/-- Updating every slot whose key matches, by a key-preserving function,
commutes with looking the key up: the lookup now returns the updated
record. -/
theorem find?_key_map {α : Type} (key : α → String) (k : String) (g : α → α)
    (hg : ∀ x, key x = k → key (g x) = k) :
    ∀ (l : List α) (a : α),
      l.find? (fun x => key x = k) = some a →
      (l.map (fun x => if key x = k then g x else x)).find? (fun x => key x = k) =
        some (g a) := by
  intro l
  induction l with
  | nil => intro a h; cases h
  | cons x xs ih =>
    intro a h
    by_cases hx : key x = k
    · have hpx : (decide (key x = k)) = true := decide_eq_true hx
      rw [List.find?_cons, hpx] at h
      have hxa : x = a := Option.some.inj h
      subst hxa
      have hpgx : (decide (key (g x) = k)) = true := decide_eq_true (hg x hx)
      rw [List.map_cons, if_pos hx, List.find?_cons, hpgx]
    · have hpx : (decide (key x = k)) = false := decide_eq_false hx
      rw [List.find?_cons, hpx] at h
      rw [List.map_cons, if_neg hx, List.find?_cons, hpx]
      exact ih a h

/-- A member satisfying the predicate forces `findIdx?` to succeed. -/
theorem findIdx?_some_of_mem {α : Type} {p : α → Bool} {l : List α} {x : α}
    (hx : x ∈ l) (hp : p x = true) : ∃ i, l.findIdx? p = some i := by
  have hany : l.any p = true := List.any_eq_true.mpr ⟨x, hx, hp⟩
  have hs := @List.findIdx?_isSome _ l p
  rw [hany] at hs
  exact Option.isSome_iff_exists.mp hs

/-- The index returned by `findIdx?` is in range and its element satisfies
the predicate. -/
theorem findIdx?_bound_and_pred {α : Type} {p : α → Bool} {l : List α} {i : ℕ}
    (h : l.findIdx? p = some i) :
    ∃ hl : i < l.length, p (l.get ⟨i, hl⟩) = true := by
  obtain ⟨hl, hp, _⟩ := List.findIdx?_eq_some_iff_getElem.mp h
  exact ⟨hl, by rw [List.get_eq_getElem]; exact hp⟩

/-- Value equation of a successful `addPlayer` call. -/
theorem addPlayer_ok (p : Player) (q : List QueueEntry) (now : ℤ)
    (hq : p.isInQueue = false) (hm : p.isInMatch = false) :
    BadmintonQueue.addPlayer p q now =
      .ok (admittedPlayer p now, sortEntries (q ++ [admittedEntry p now]),
        match (sortEntries (q ++ [admittedEntry p now])).findIdx?
            (fun e => e.playerId = p.id) with
        | some i => i + 1
        | none => 0) := by
  have hcond : ¬((p.isInQueue || p.isInMatch) = true) := by simp [hq, hm]
  unfold BadmintonQueue.addPlayer
  rw [if_neg hcond]
  rfl

/-- Batch registry updates with id-disjoint batches commute. -/
theorem applyUpdates_comm (ps u v : List Player)
    (hdisj : ∀ a ∈ u, ∀ b ∈ v, a.id ≠ b.id) :
    applyUpdates ps (u ++ v) = applyUpdates ps (v ++ u) := by
  unfold applyUpdates
  apply List.map_congr_left
  intro x _
  rw [List.find?_append, List.find?_append]
  cases hu : u.find? (fun w => w.id = x.id) with
  | none =>
    cases hv : v.find? (fun w => w.id = x.id) with
    | none => simp
    | some b => simp
  | some a =>
    cases hv : v.find? (fun w => w.id = x.id) with
    | none => simp
    | some b =>
      exfalso
      have ha := List.mem_of_find?_eq_some hu
      have hb := List.mem_of_find?_eq_some hv
      have ha' : a.id = x.id := by simpa using List.find?_some hu
      have hb' : b.id = x.id := by simpa using List.find?_some hv
      exact hdisj a ha b hb (ha'.trans hb'.symm)

/-- C5: session formation fails with `InsufficientEntries` exactly when the
queue holds fewer than 4 entries, leaving the state unchanged in that case;
otherwise it removes exactly the first 4 entries in rank order as the
roster, keeps the remaining entries in relative order, and moves every
roster participant to in-session state. -/
theorem c5_formSession (st : ServerState) (mid : String) (now : ℤ) :
    ((systemCreateMatch st mid now).2 = .error .insufficientEntries ↔ st.queue.length < 4) ∧
    (st.queue.length < 4 → systemCreateMatch st mid now = (st, .error .insufficientEntries)) ∧
    (4 ≤ st.queue.length → createMatchSuccessSpec st mid now) := by
  by_cases h : st.queue.length < 4
  · unfold systemCreateMatch
    rw [if_pos h]
    exact ⟨by simp [h], fun _ => rfl, fun h4 => absurd h (by omega)⟩
  · constructor
    · unfold systemCreateMatch
      rw [if_neg h]
      constructor
      · intro habs
        exact absurd habs (by simp)
      · intro hlt
        exact absurd hlt h
    constructor
    · intro hlt
      exact absurd hlt h
    · intro h4
      unfold createMatchSuccessSpec systemCreateMatch
      rw [if_neg h]
      refine ⟨_, _, rfl, rfl, ?_, rfl, (List.take_append_drop 4 st.queue).symm, ?_, ?_⟩
      · rw [List.length_take]
        omega
      · intro x hx hcont
        have hfx :
            (if ((st.queue.take 4).map QueueEntry.playerId).contains x.id = true
              then { x with isInQueue := false, isInMatch := true } else x) =
              { x with isInQueue := false, isInMatch := true } := if_pos hcont
        exact hfx ▸ List.mem_map_of_mem _ hx
      · intro x hx hcont
        have hcont' : ((st.queue.take 4).map QueueEntry.playerId).contains x.id = false := hcont
        have hfx :
            (if ((st.queue.take 4).map QueueEntry.playerId).contains x.id = true
              then { x with isInQueue := false, isInMatch := true } else x) = x :=
          if_neg (ne_true_of_eq_false hcont')
        exact hfx ▸ List.mem_map_of_mem _ hx

/-- C5 witness: forming a session from the concrete four-entry state. -/
theorem c5_formSession_witness :
    4 ≤ fourQueuedState.queue.length ∧ createMatchSuccessSpec fourQueuedState "m1" 10 :=
  ⟨by decide, (c5_formSession fourQueuedState "m1" 10).2.2 (by decide)⟩

/-- The admitted entry is a member of the re-sorted queue. -/
theorem admittedEntry_mem (p : Player) (q : List QueueEntry) (now : ℤ) :
    admittedEntry p now ∈ sortEntries (q ++ [admittedEntry p now]) :=
  (sortEntries_perm _).mem_iff.mpr (List.mem_append_right _ (List.mem_singleton_self _))

/-- The re-sorted queue after admission has one more entry. -/
theorem admitted_queue_length (p : Player) (q : List QueueEntry) (now : ℤ) :
    (sortEntries (q ++ [admittedEntry p now])).length = q.length + 1 := by
  rw [(sortEntries_perm _).length_eq, List.length_append, List.length_singleton]

/-- Searching the re-sorted queue for the admitted participant's id
succeeds. -/
theorem admitted_findIdx?_some (p : Player) (q : List QueueEntry) (now : ℤ)
    (k : String) (hk : p.id = k) :
    ∃ i, (sortEntries (q ++ [admittedEntry p now])).findIdx?
      (fun e => e.playerId = k) = some i := by
  refine @findIdx?_some_of_mem QueueEntry (fun e => e.playerId = k)
    (sortEntries (q ++ [admittedEntry p now])) (admittedEntry p now)
    (admittedEntry_mem p q now) ?_
  simp [admittedEntry, hk]

/-- C6: admission fails with `AlreadyActive` exactly when the participant is
already queued or in a session, leaving the state unchanged; otherwise it
recomputes the weight, marks the participant queued, inserts one new entry,
and returns the participant's 1-based rank in the resulting order. -/
theorem c6_admit (st : ServerState) (pid : String) (now : ℤ) (p : Player)
    (hfind : st.players.find? (fun x => x.id = pid) = some p) :
    ((p.isInQueue = true ∨ p.isInMatch = true) →
      systemAdmit st pid now = (st, .error .alreadyActive)) ∧
    (p.isInQueue = false → p.isInMatch = false → admitSuccessSpec st pid now p) := by
  constructor
  · intro hact
    have hcond : (p.isInQueue || p.isInMatch) = true := by
      rcases hact with h | h <;> simp [h]
    have haddp : BadmintonQueue.addPlayer p st.queue now = .error .alreadyActive := by
      unfold BadmintonQueue.addPlayer
      rw [if_pos hcond]
    simp only [systemAdmit, hfind, haddp]
  · intro hq hm
    have haddp := addPlayer_ok p st.queue now hq hm
    obtain ⟨i, hidx⟩ := admitted_findIdx?_some p st.queue now p.id rfl
    have hsys : systemAdmit st pid now =
        ({ st with players := replaceById st.players pid (admittedPlayer p now),
                   queue := sortEntries (st.queue ++ [admittedEntry p now]) },
         .ok (i + 1)) := by
      simp only [systemAdmit, hfind, haddp, hidx]
    obtain ⟨hl, hp⟩ := findIdx?_bound_and_pred hidx
    refine ⟨_, i + 1, hsys, rfl, rfl, rfl, admitted_queue_length p st.queue now, by omega, ?_⟩
    simp only [Nat.add_sub_cancel]
    exact ⟨hl, of_decide_eq_true hp⟩

/-- C6 witness: admitting the idle participant of the one-player state. -/
theorem c6_admit_witness :
    oneIdleState.players.find? (fun x => x.id = "a") = some (Player.make "a" "A") ∧
    ((((Player.make "a" "A").isInQueue = true ∨ (Player.make "a" "A").isInMatch = true) →
        systemAdmit oneIdleState "a" 0 = (oneIdleState, .error .alreadyActive)) ∧
      ((Player.make "a" "A").isInQueue = false → (Player.make "a" "A").isInMatch = false →
        admitSuccessSpec oneIdleState "a" 0 (Player.make "a" "A"))) :=
  ⟨rfl, c6_admit oneIdleState "a" 0 (Player.make "a" "A") rfl⟩

/-- C7: admitting an idle participant and immediately withdrawing it
restores the participant to idle membership state and returns the queue to
its previous length. -/
theorem c7_admit_withdraw (st : ServerState) (pid : String) (now : ℤ) (p : Player)
    (hfind : st.players.find? (fun x => x.id = pid) = some p)
    (hq : p.isInQueue = false) (hm : p.isInMatch = false) :
    ∃ st' r st'', systemAdmit st pid now = (st', .ok r) ∧
      systemWithdraw st' pid = (st'', .ok ()) ∧
      st''.queue.length = st.queue.length ∧
      st''.players.find? (fun x => x.id = pid) =
        some { admittedPlayer p now with isInQueue := false } ∧
      ({ admittedPlayer p now with isInQueue := false }).isInQueue = false ∧
      ({ admittedPlayer p now with isInQueue := false }).isInMatch = false := by
  have hps := List.find?_some hfind
  have hpid : p.id = pid := by simpa using hps
  have haddp := addPlayer_ok p st.queue now hq hm
  obtain ⟨i, hidx⟩ := admitted_findIdx?_some p st.queue now p.id rfl
  have hsys : systemAdmit st pid now =
      ({ st with players := replaceById st.players pid (admittedPlayer p now),
                 queue := sortEntries (st.queue ++ [admittedEntry p now]) },
       .ok (i + 1)) := by
    simp only [systemAdmit, hfind, haddp, hidx]
  obtain ⟨j, hjdx⟩ := admitted_findIdx?_some p st.queue now pid hpid
  obtain ⟨hjl, _⟩ := findIdx?_bound_and_pred hjdx
  have hwd : systemWithdraw
      { st with players := replaceById st.players pid (admittedPlayer p now),
                queue := sortEntries (st.queue ++ [admittedEntry p now]) } pid =
      ({ st with
         players := (replaceById st.players pid (admittedPlayer p now)).map
           (fun x => if x.id = pid then { x with isInQueue := false } else x),
         queue := (sortEntries (st.queue ++ [admittedEntry p now])).eraseIdx j },
       .ok ()) := by
    simp only [systemWithdraw, hjdx]
  refine ⟨_, i + 1, _, hsys, hwd, ?_, ?_, rfl, hm⟩
  · rw [List.length_eraseIdx, if_pos hjl, admitted_queue_length p st.queue now]
    omega
  · have step1 :
        (replaceById st.players pid (admittedPlayer p now)).find?
          (fun x => x.id = pid) = some (admittedPlayer p now) :=
      find?_key_map Player.id pid (fun _ => admittedPlayer p now)
        (fun x _ => hpid) st.players p hfind
    exact find?_key_map Player.id pid (fun x => { x with isInQueue := false })
      (fun x hx => hx) _ (admittedPlayer p now) step1

/-- C7 witness: admit-then-withdraw on the one-player state. -/
theorem c7_admit_withdraw_witness :
    oneIdleState.players.find? (fun x => x.id = "a") = some (Player.make "a" "A") ∧
    (Player.make "a" "A").isInQueue = false ∧
    (Player.make "a" "A").isInMatch = false ∧
    (∃ st' r st'', systemAdmit oneIdleState "a" 0 = (st', .ok r) ∧
      systemWithdraw st' "a" = (st'', .ok ()) ∧
      st''.queue.length = oneIdleState.queue.length ∧
      st''.players.find? (fun x => x.id = "a") =
        some { admittedPlayer (Player.make "a" "A") 0 with isInQueue := false } ∧
      ({ admittedPlayer (Player.make "a" "A") 0 with isInQueue := false }).isInQueue = false ∧
      ({ admittedPlayer (Player.make "a" "A") 0 with isInQueue := false }).isInMatch = false) :=
  ⟨rfl, rfl, rfl,
    c7_admit_withdraw oneIdleState "a" 0 (Player.make "a" "A") rfl rfl rfl⟩

/-- C10: a successful withdraw removes exactly the found entry, keeps every
other entry's weight and relative position, flips only the withdrawn
participant's in-queue flag (statistics and timestamps untouched, ending in
idle state), and leaves every other participant and all match state
unchanged. -/
theorem c10_withdraw_frame (st : ServerState) (pid : String) (i : ℕ) (p : Player)
    (hidx : st.queue.findIdx? (fun e => e.playerId = pid) = some i)
    (hfind : st.players.find? (fun x => x.id = pid) = some p)
    (_hq : p.isInQueue = true) (hm : p.isInMatch = false) :
    withdrawFrameSpec st pid i p := by
  have hwd : systemWithdraw st pid =
      ({ st with queue := st.queue.eraseIdx i,
                 players := st.players.map
                   (fun x => if x.id = pid then { x with isInQueue := false } else x) },
       .ok ()) := by
    simp only [systemWithdraw, hidx]
  obtain ⟨hl, hpred⟩ := findIdx?_bound_and_pred hidx
  refine ⟨_, hwd, rfl, List.eraseIdx_eq_take_drop_succ st.queue i,
    List.eraseIdx_sublist st.queue i,
    ⟨hl, of_decide_eq_true hpred⟩,
    find?_key_map Player.id pid (fun x => { x with isInQueue := false }) (fun x hx => hx)
      st.players p hfind,
    rfl, rfl, rfl, rfl, rfl, hm, ?_, rfl, rfl, rfl⟩
  intro x hx hxid
  have hfx : (if x.id = pid then { x with isInQueue := false } else x) = x := if_neg hxid
  exact hfx ▸ List.mem_map_of_mem _ hx

/-- C10 witness: withdrawing the single queued participant. -/
theorem c10_withdraw_frame_witness :
    oneQueuedState.queue.findIdx? (fun e => e.playerId = "a") = some 0 ∧
    oneQueuedState.players.find? (fun x => x.id = "a") = some queuedA ∧
    queuedA.isInQueue = true ∧
    queuedA.isInMatch = false ∧
    withdrawFrameSpec oneQueuedState "a" 0 queuedA :=
  ⟨rfl, rfl, rfl, rfl, c10_withdraw_frame oneQueuedState "a" 0 queuedA rfl rfl rfl rfl⟩

/-- C3: in a successful resolution each side's opponent rating is the
arithmetic mean of the opposing side's pre-update ratings (the snapshot is
taken before any update, so writing the two updated sides back commutes),
and every roster member's rating, win or loss counter, total-sessions
counter, last-session timestamp, and membership state are updated. -/
theorem c3_resolution (m : BadmintonMatch) (winners losers : List Player) (now : ℤ)
    (hw : winners.length = 2) (hl : losers.length = 2)
    (hqw : ∀ p ∈ winners, p.isInQueue = false) (hql : ∀ p ∈ losers, p.isInQueue = false)
    (hdisj : ∀ a ∈ winners, ∀ b ∈ losers, a.id ≠ b.id) :
    resolutionSpec m winners losers now := by
  have hWmap : (m.completeMatch winners losers now).2.1 =
      winners.map (fun p =>
        { p.updateRanking true ((((losers.map Player.ranking).sum : ℤ) : ℚ) / 2) with
          lastMatchTime := some now, isInMatch := false }) := rfl
  have hLmap : (m.completeMatch winners losers now).2.2 =
      losers.map (fun p =>
        { p.updateRanking false ((((winners.map Player.ranking).sum : ℤ) : ℚ) / 2) with
          lastMatchTime := some now, isInMatch := false }) := rfl
  refine ⟨by rw [hw]; norm_num, by rw [hl]; norm_num, rfl, rfl, ?_, rfl, rfl, rfl, ?_⟩
  · intro p' hp'
    rcases List.mem_append.mp hp' with h | h
    · rw [hWmap] at h
      obtain ⟨p, hp, rfl⟩ := List.mem_map.mp h
      exact ⟨hqw p hp, rfl, rfl⟩
    · rw [hLmap] at h
      obtain ⟨p, hp, rfl⟩ := List.mem_map.mp h
      exact ⟨hql p hp, rfl, rfl⟩
  · intro ps
    refine applyUpdates_comm ps _ _ ?_
    intro a ha b hb
    rw [hWmap] at ha
    rw [hLmap] at hb
    obtain ⟨wa, hwa, rfl⟩ := List.mem_map.mp ha
    obtain ⟨lb, hlb, rfl⟩ := List.mem_map.mp hb
    exact hdisj wa hwa lb hlb

/-- C3 witness: resolving the concrete 2-versus-2 scenario. -/
theorem c3_resolution_witness :
    scenarioWinners.length = 2 ∧ scenarioLosers.length = 2 ∧
    (∀ p ∈ scenarioWinners, p.isInQueue = false) ∧
    (∀ p ∈ scenarioLosers, p.isInQueue = false) ∧
    (∀ a ∈ scenarioWinners, ∀ b ∈ scenarioLosers, a.id ≠ b.id) ∧
    resolutionSpec scenarioMatch scenarioWinners scenarioLosers 100 :=
  ⟨rfl, rfl, by decide, by decide, by decide,
    c3_resolution scenarioMatch scenarioWinners scenarioLosers 100 rfl rfl
      (by decide) (by decide) (by decide)⟩

/-- Branch equation of the complete-match route: the bad-request guard. -/
theorem completeMatchRoute_badRequest (st : ServerState) (matchId : String)
    (winnerIds : List String) (now : ℤ) (h : matchId = "" ∨ winnerIds.length ≠ 2) :
    completeMatchRoute st matchId winnerIds now = (st, .error .badRequest) := by
  unfold completeMatchRoute
  rw [if_pos h]

/-- Branch equation of the complete-match route: unknown session id. -/
theorem completeMatchRoute_noneFound (st : ServerState) (matchId : String)
    (winnerIds : List String) (now : ℤ)
    (h1 : ¬(matchId = "" ∨ winnerIds.length ≠ 2))
    (hfound : st.matchesById.find? (fun x => x.id = matchId) = none) :
    completeMatchRoute st matchId winnerIds now = (st, .error .sessionNotFound) := by
  unfold completeMatchRoute
  rw [if_neg h1]
  simp only [hfound]

/-- Branch equation of the complete-match route: session found but not
active. -/
theorem completeMatchRoute_notActive (st : ServerState) (matchId : String)
    (winnerIds : List String) (now : ℤ) (m : BadmintonMatch)
    (h1 : ¬(matchId = "" ∨ winnerIds.length ≠ 2))
    (hfound : st.matchesById.find? (fun x => x.id = matchId) = some m)
    (hst : m.status ≠ MatchStatus.active) :
    completeMatchRoute st matchId winnerIds now = (st, .error .sessionNotFound) := by
  unfold completeMatchRoute
  rw [if_neg h1]
  simp only [hfound]
  rw [if_pos hst]

/-- Branch equation of the complete-match route: active session, bad winner
split. -/
theorem completeMatchRoute_invalid (st : ServerState) (matchId : String)
    (winnerIds : List String) (now : ℤ) (m : BadmintonMatch)
    (h1 : ¬(matchId = "" ∨ winnerIds.length ≠ 2))
    (hfound : st.matchesById.find? (fun x => x.id = matchId) = some m)
    (hact : ¬(m.status ≠ MatchStatus.active))
    (hbad : (winnersOf st m winnerIds).length ≠ 2 ∨ (losersOf st m winnerIds).length ≠ 2) :
    completeMatchRoute st matchId winnerIds now = (st, .error .invalidOutcome) := by
  unfold completeMatchRoute
  rw [if_neg h1]
  simp only [hfound]
  rw [if_neg hact, if_pos hbad]

/-- Branch equation of the complete-match route: success. -/
theorem completeMatchRoute_success (st : ServerState) (matchId : String)
    (winnerIds : List String) (now : ℤ) (m : BadmintonMatch)
    (h1 : ¬(matchId = "" ∨ winnerIds.length ≠ 2))
    (hfound : st.matchesById.find? (fun x => x.id = matchId) = some m)
    (hact : ¬(m.status ≠ MatchStatus.active))
    (hgood : ¬((winnersOf st m winnerIds).length ≠ 2 ∨ (losersOf st m winnerIds).length ≠ 2)) :
    completeMatchRoute st matchId winnerIds now =
      (resolvedState st m matchId winnerIds now, .ok ()) := by
  unfold completeMatchRoute
  rw [if_neg h1]
  simp only [hfound]
  rw [if_neg hact, if_neg hgood]

/-- C4 counterexample: with no session registered at all (so no active
session has id `m1`) and a single winner id, the route fails with the
bad-request error of the winner-count guard, not with `SessionNotFound` as
the claim requires. -/
theorem c4_counterexample :
    emptyState.matchesById.find? (fun x => x.id = "m1") = none ∧
    (completeMatchRoute emptyState "m1" ["w1"] 0).2 = Except.error ResolveError.badRequest ∧
    (completeMatchRoute emptyState "m1" ["w1"] 0).2 ≠ Except.error ResolveError.sessionNotFound := by
  have hbr : completeMatchRoute emptyState "m1" ["w1"] 0 = (emptyState, .error .badRequest) :=
    completeMatchRoute_badRequest _ _ _ _ (Or.inr (by decide))
  refine ⟨rfl, by rw [hbr], ?_⟩
  rw [hbr]
  simp

/-- C4 amended: the winner-count (and blank-id) bad-request guard fires
first; `SessionNotFound` is returned whenever the id is nonempty, the
winner list has exactly 2 entries, and no active session has the id
(including an already-resolved one, so a second resolution fails);
`InvalidOutcome` is returned when an active session's roster is not split
exactly 2/2 by the winner ids; and every failure leaves the state
unchanged. -/
theorem c4_amended (st : ServerState) (matchId : String) (winnerIds : List String) (now : ℤ) :
    resolveSpec st matchId winnerIds now := by
  refine ⟨?_, ?_, ?_, ?_, ?_, ?_⟩
  · exact fun h => completeMatchRoute_badRequest st matchId winnerIds now h
  · intro hm hlen hnone
    exact completeMatchRoute_noneFound st matchId winnerIds now
      (fun hc => hc.elim hm (fun h2 => h2 hlen)) hnone
  · intro m hm hlen hfound hst
    exact completeMatchRoute_notActive st matchId winnerIds now m
      (fun hc => hc.elim hm (fun h2 => h2 hlen)) hfound hst
  · intro m hm hlen hfound hact hbad
    exact completeMatchRoute_invalid st matchId winnerIds now m
      (fun hc => hc.elim hm (fun h2 => h2 hlen)) hfound (fun hne => hne hact) hbad
  · intro e he
    by_cases h1 : (matchId = "" ∨ winnerIds.length ≠ 2)
    · rw [completeMatchRoute_badRequest st matchId winnerIds now h1]
    · cases hfound : st.matchesById.find? (fun x => x.id = matchId) with
      | none => rw [completeMatchRoute_noneFound st matchId winnerIds now h1 hfound]
      | some m =>
        by_cases h2 : m.status ≠ MatchStatus.active
        · rw [completeMatchRoute_notActive st matchId winnerIds now m h1 hfound h2]
        · by_cases h3 :
            ((winnersOf st m winnerIds).length ≠ 2 ∨ (losersOf st m winnerIds).length ≠ 2)
          · rw [completeMatchRoute_invalid st matchId winnerIds now m h1 hfound h2 h3]
          · exfalso
            rw [completeMatchRoute_success st matchId winnerIds now m h1 hfound h2 h3] at he
            simp at he
  · intro st' hsucc now2
    by_cases h1 : (matchId = "" ∨ winnerIds.length ≠ 2)
    · rw [completeMatchRoute_badRequest st matchId winnerIds now h1] at hsucc
      exact absurd (congrArg Prod.snd hsucc) (by simp)
    · cases hfound : st.matchesById.find? (fun x => x.id = matchId) with
      | none =>
        rw [completeMatchRoute_noneFound st matchId winnerIds now h1 hfound] at hsucc
        exact absurd (congrArg Prod.snd hsucc) (by simp)
      | some m =>
        by_cases h2 : m.status ≠ MatchStatus.active
        · rw [completeMatchRoute_notActive st matchId winnerIds now m h1 hfound h2] at hsucc
          exact absurd (congrArg Prod.snd hsucc) (by simp)
        · by_cases h3 :
            ((winnersOf st m winnerIds).length ≠ 2 ∨ (losersOf st m winnerIds).length ≠ 2)
          · rw [completeMatchRoute_invalid st matchId winnerIds now m h1 hfound h2 h3] at hsucc
            exact absurd (congrArg Prod.snd hsucc) (by simp)
          · rw [completeMatchRoute_success st matchId winnerIds now m h1 hfound h2 h3] at hsucc
            injection hsucc with h4 h5
            subst h4
            have hmid : m.id = matchId := by simpa using List.find?_some hfound
            have hfind2 : (resolvedState st m matchId winnerIds now).matchesById.find?
                (fun x => x.id = matchId) =
                some (m.completeMatch (winnersOf st m winnerIds)
                  (losersOf st m winnerIds) now).1 :=
              find?_key_map BadmintonMatch.id matchId
                (fun _ => (m.completeMatch (winnersOf st m winnerIds)
                  (losersOf st m winnerIds) now).1)
                (fun x _ => hmid) st.matchesById m hfound
            have hstat : ((m.completeMatch (winnersOf st m winnerIds)
                (losersOf st m winnerIds) now).1).status ≠ MatchStatus.active := by
              intro hac
              exact MatchStatus.noConfusion
                (show MatchStatus.completed = MatchStatus.active from hac)
            rw [completeMatchRoute_notActive (resolvedState st m matchId winnerIds now)
              matchId winnerIds now2 _ h1 hfind2 hstat]

/-- C4 witness: the bad-request branch of the amended statement at a
concrete input. -/
theorem c4_amended_witness :
    ("" = "" ∨ ([] : List String).length ≠ 2) ∧
    completeMatchRoute emptyState "" [] 0 = (emptyState, Except.error ResolveError.badRequest) :=
  ⟨Or.inl rfl, (c4_amended emptyState "" [] 0).1 (Or.inl rfl)⟩

/-- The join route's found-participant branch never changes the registry
length. -/
theorem joinRoute_found_players_length (s2 : ServerState) (rawName freshId2 : String)
    (now2 : ℤ) (hname : jsTrim rawName ≠ "") (q : Player)
    (hfound : s2.players.find? (fun x => x.name = jsTrim rawName) = some q) :
    (joinRoute s2 rawName freshId2 now2).1.players.length = s2.players.length := by
  unfold joinRoute
  rw [if_neg hname]
  simp only [hfound]
  cases haddp : BadmintonQueue.addPlayer q s2.queue now2 with
  | error e => simp only [haddp]
  | ok val =>
    obtain ⟨p', q', r⟩ := val
    simp only [haddp]
    unfold replaceById
    exact List.length_map _ _

/-- Value equation of the join route when the trimmed name is already
registered and the participant is admissible. -/
theorem joinRoute_found_ok (s2 : ServerState) (rawName freshId : String) (now : ℤ)
    (hname : jsTrim rawName ≠ "") (q : Player)
    (hfound : s2.players.find? (fun x => x.name = jsTrim rawName) = some q)
    (hq : q.isInQueue = false) (hm : q.isInMatch = false) :
    ∃ r, joinRoute s2 rawName freshId now =
      ({ s2 with players := replaceById s2.players q.id (admittedPlayer q now),
                 queue := sortEntries (s2.queue ++ [admittedEntry q now]) }, .ok r) := by
  have haddp := addPlayer_ok q s2.queue now hq hm
  obtain ⟨i, hidx⟩ := admitted_findIdx?_some q s2.queue now q.id rfl
  refine ⟨i + 1, ?_⟩
  unfold joinRoute
  rw [if_neg hname]
  simp only [hfound, haddp, hidx]

/-- Value equation of the join route when no participant carries the
trimmed name: a fresh participant is created and admitted. -/
theorem joinRoute_none_ok (s2 : ServerState) (rawName freshId : String) (now : ℤ)
    (hname : jsTrim rawName ≠ "")
    (hnone : s2.players.find? (fun x => x.name = jsTrim rawName) = none) :
    ∃ r, joinRoute s2 rawName freshId now =
      ({ s2 with
         players := s2.players ++ [admittedPlayer (Player.make freshId (jsTrim rawName)) now],
         queue := sortEntries
           (s2.queue ++ [admittedEntry (Player.make freshId (jsTrim rawName)) now]) },
       .ok r) := by
  have haddp := addPlayer_ok (Player.make freshId (jsTrim rawName)) s2.queue now rfl rfl
  obtain ⟨i, hidx⟩ := admitted_findIdx?_some (Player.make freshId (jsTrim rawName)) s2.queue now
    (Player.make freshId (jsTrim rawName)).id rfl
  refine ⟨i + 1, ?_⟩
  unfold joinRoute
  rw [if_neg hname]
  simp only [hnone, haddp, hidx]

/-- C9: an admission with a non-blank name trims the name, reuses an
existing participant with that exact name (no new record), creates a fresh
baseline-1200 participant only when the name is unknown, and a repeated
admission under the same name addresses the created record. -/
theorem c9_join_registry (st : ServerState) (rawName freshId : String) (now : ℤ)
    (hname : jsTrim rawName ≠ "") : joinSpec st rawName freshId now := by
  refine ⟨?_, ?_, ?_⟩
  · intro p hfound
    exact ⟨joinRoute_found_players_length st rawName freshId now hname p hfound,
      fun hq hm => joinRoute_found_ok st rawName freshId now hname p hfound hq hm⟩
  · intro hnone
    exact ⟨joinRoute_none_ok st rawName freshId now hname hnone, rfl, rfl, rfl⟩
  · intro hnone freshId2 now2
    obtain ⟨r, hr⟩ := joinRoute_none_ok st rawName freshId now hname hnone
    have hplayers : (joinRoute st rawName freshId now).1.players =
        st.players ++ [admittedPlayer (Player.make freshId (jsTrim rawName)) now] := by
      rw [hr]
    have hfound2 : (joinRoute st rawName freshId now).1.players.find?
        (fun x => x.name = jsTrim rawName) =
        some (admittedPlayer (Player.make freshId (jsTrim rawName)) now) := by
      rw [hplayers, List.find?_append, hnone]
      have hdec : (decide ((admittedPlayer (Player.make freshId (jsTrim rawName)) now).name =
          jsTrim rawName)) = true := decide_eq_true rfl
      rw [List.find?_cons, hdec]
      rfl
    constructor
    · rw [hfound2]
      rfl
    · exact joinRoute_found_players_length _ rawName freshId2 now2 hname _ hfound2

/-- C9 witness: joining under the already-registered name `A`. -/
theorem c9_join_registry_witness :
    jsTrim "A" ≠ "" ∧ joinSpec oneIdleState "A" "fresh" 0 :=
  ⟨by decide, c9_join_registry oneIdleState "A" "fresh" 0 (by decide)⟩

/-- C2: the rating update sets the new rating to
`round(selfRating + 32 * (actual - E))` with
`E = 1 / (1 + 10 ^ ((opponentRating - selfRating) / 400))` and actual score
1 for a win and 0 for a loss; a win against an equal-rated opponent yields
a delta of exactly `round (32 * 0.5) = 16`. -/
theorem c2_elo_update (p : Player) (opponentRanking : ℚ) (won : Bool) :
    (p.updateRanking won opponentRanking).ranking =
      round ((p.ranking : ℝ) +
        32 * ((if won then (1 : ℝ) else 0) -
          1 / (1 + (10 : ℝ) ^ (((opponentRanking : ℝ) - (p.ranking : ℝ)) / 400)))) ∧
    (p.updateRanking true (p.ranking : ℚ)).ranking = p.ranking + 16 ∧
    round ((32 : ℝ) * (1 / 2)) = (16 : ℤ) := by
  refine ⟨rfl, ?_, by norm_num [round_eq]⟩
  show eloNewRanking p.ranking (p.ranking : ℚ) true = p.ranking + 16
  have hE : expectedScore p.ranking (p.ranking : ℚ) = 1 / 2 := by
    unfold expectedScore
    have h0 : (((p.ranking : ℚ) : ℝ) - (p.ranking : ℝ)) = 0 := by push_cast; ring
    rw [h0, zero_div, Real.rpow_zero]
    norm_num
  unfold eloNewRanking
  rw [hE]
  have h16 : ((p.ranking : ℝ) + 32 * ((if (true : Bool) then (1 : ℝ) else 0) - 1 / 2)) =
      ((p.ranking + 16 : ℤ) : ℝ) := by
    simp only [if_true]
    push_cast
    ring
  rw [h16, round_intCast]

/-- C8 counterexample: a participant with rating 1200 whose last session was
45 minutes ago (45 * 60000 ms) receives queue weight 5/2 = 2.5, not the 3.0
the claim states. -/
theorem c8_counterexample :
    (Player.calculateQueueWeight scenarioPlayer 2700000).queueWeight = 5 / 2 ∧
      ((5 : ℚ) / 2) ≠ 3 := by
  constructor
  · norm_num [Player.calculateQueueWeight, scenarioPlayer, round_eq]
  · norm_num

/-- C8 amended: a participant with rating 1200 admitted 45 minutes after the
last session timestamp receives queue weight 2.5 — the wait bonus
`min(45/30, 2.0) = 1.5` is not yet capped — per the weight formula base 1.0
plus `min(elapsed minutes / 30, 2.0)` rounded to 2 decimal places. -/
theorem c8_amended (p : Player) (t now : ℤ)
    (hlast : p.lastMatchTime = some t) (hrank : p.ranking = 1200)
    (helapsed : now - t = 2700000) :
    (p.calculateQueueWeight now).queueWeight = 5 / 2 ∧
      ((5 : ℚ) / 2) = ((round (((1 : ℚ) + min ((45 : ℚ) / 30) 2) * 100) : ℤ) : ℚ) / 100 := by
  have hcast : ((now - t : ℤ) : ℚ) = 2700000 := by rw [helapsed]; norm_num
  constructor
  · simp only [Player.calculateQueueWeight, hlast, hrank, hcast]
    norm_num [round_eq]
  · norm_num [round_eq]

/-- C8 witness: the amended statement instantiated at the concrete scenario
participant. -/
theorem c8_amended_witness :
    scenarioPlayer.lastMatchTime = some 0 ∧ scenarioPlayer.ranking = 1200 ∧
      (2700000 : ℤ) - 0 = 2700000 ∧
      ((scenarioPlayer.calculateQueueWeight 2700000).queueWeight = 5 / 2 ∧
        ((5 : ℚ) / 2) =
          ((round (((1 : ℚ) + min ((45 : ℚ) / 30) 2) * 100) : ℤ) : ℚ) / 100) :=
  ⟨rfl, rfl, by decide, c8_amended scenarioPlayer 0 2700000 rfl rfl (by decide)⟩

end QueueSystem
